import Mathlib

/-
Verification of the multi-exchange price-fetch fallback chain and the
per-provider sliding-window rate limiter of src/Dantemk1.py
(class ComprehensiveCryptoBot).

Timestamps (Python time.time) are modelled as rationals.  Python dicts are
modelled as insertion-ordered association lists, and JSON values as a small
inductive type.
-/

set_option autoImplicit false

namespace Dantemk1

/-- JSON values as returned by response.json, and also the values stored in
the price dicts the provider methods return. -/
inductive JVal where
  | num (q : ℚ)
  | str (s : String)
  | obj (fields : List (String × JVal))

/-- A Python dict with string keys, in insertion order. -/
abbrev PyDict := List (String × JVal)

/-- Dict lookup by key, first binding wins, matching Python dict access. -/
def lookupStr {β : Type} : List (String × β) → String → Option β
  | [], _ => none
  | (k0, v) :: rest, k => if k0 = k then some v else lookupStr rest k

/-- Dict update d[k] = v: replace the first binding of k in place, or append
a new binding at the end, matching Python dict assignment semantics. -/
def setEntry {β : Type} : List (String × β) → String → β → List (String × β)
  | [], k, v => [(k, v)]
  | (k0, v0) :: rest, k, v =>
      if k0 = k then (k, v) :: rest else (k0, v0) :: setEntry rest k v

/-- The self.exchanges table built in ComprehensiveCryptoBot.init. -/
def exchanges : List (String × String) :=
  [("binance", "https://api.binance.com/api/v3"),
   ("coingecko", "https://api.coingecko.com/api/v3"),
   ("cryptocompare", "https://min-api.cryptocompare.com/data"),
   ("coinbase", "https://api.exchange.coinbase.com"),
   ("kraken", "https://api.kraken.com/0/public")]

/-- The literal limits dict inside check_rate_limit: 10 per minute for
binance, 8 for coingecko, 5 for cryptocompare. -/
def limits : List (String × Nat) :=
  [("binance", 10), ("coingecko", 8), ("cryptocompare", 5)]

/-- limits.get(exchange, 5). -/
def limitFor (exchange : String) : Nat :=
  (lookupStr limits exchange).getD 5

/-- The mutable self.rate_limits mapping of check_rate_limit: a dict from
exchange name to the list of recent call timestamps. -/
structure RateState where
  rate_limits : List (String × List ℚ)

/-- The initial state: self.rate_limits starts as the empty dict. -/
def initState : RateState := ⟨[]⟩

/-- The window currently stored for an exchange, the empty list if the key
is absent (check_rate_limit lazily inserts [] for a missing key before any
read, so a missing key and an empty stored window are indistinguishable to
the rest of the algorithm). -/
def getWindow (s : RateState) (exchange : String) : List ℚ :=
  (lookupStr s.rate_limits exchange).getD []

/-- The pruning step of check_rate_limit: keep exactly the timestamps t with
now - t < 60. -/
def pruneWindow (now : ℚ) (w : List ℚ) : List ℚ :=
  w.filter (fun t => now - t < 60)

/-- check_rate_limit of src/Dantemk1.py, with the call to time.time made an
explicit argument.  It lazily creates an empty window for an unseen
exchange, stores back the pruned window, and appends now and returns True
exactly when the pruned window is strictly shorter than the limit. -/
def check_rate_limit (s : RateState) (exchange : String) (now : ℚ) :
    Bool × RateState :=
  let w := pruneWindow now (getWindow s exchange)
  if w.length < limitFor exchange then
    (true, ⟨setEntry s.rate_limits exchange (w ++ [now])⟩)
  else
    (false, ⟨setEntry s.rate_limits exchange w⟩)

/-- Run a sequence of check_rate_limit calls, collecting the returned
booleans. -/
def runAdmits : List (String × ℚ) → RateState → List Bool × RateState
  | [], s => ([], s)
  | (ex, t) :: rest, s =>
      let r := check_rate_limit s ex t
      let rr := runAdmits rest r.2
      (r.1 :: rr.1, rr.2)

/-- n calls to check_rate_limit for the same exchange at the same instant. -/
def repeatAdmit (exchange : String) (t : ℚ) (n : Nat) (s : RateState) :
    List Bool × RateState :=
  runAdmits (List.replicate n (exchange, t)) s

/-- An HTTP response as the provider methods see it: the status code and
the parsed JSON body.  JSON numbers are modelled as rationals; Binance
returns its numeric fields as decimal strings, which the method parses with
float, so they too are modelled as num nodes. -/
structure HttpResp where
  status_code : Nat
  json : List (String × JVal)

/-- The outcome of the single requests.get call a provider method makes:
either the call raised (timeout, connection error, bad JSON body) or it
produced a response. -/
inductive Transport where
  | fail
  | resp (r : HttpResp)

/-- Extract a numeric JSON field, as float(data[key]) does; any missing or
non-numeric field makes the enclosing method raise, which its own
try/except turns into None. -/
def jnum (v : Option JVal) : Option ℚ :=
  match v with
  | some (JVal.num q) => some q
  | _ => none

/-- get_binance_price of src/Dantemk1.py, with the requests.get call
abstracted into a Transport argument.  On a 200 response it builds the
price dict from the five float fields; on any other status it falls
through to None, and every exception (transport failure, missing field)
is caught by the method and becomes None. -/
def get_binance_price (t : Transport) : Option PyDict :=
  match t with
  | Transport.fail => none
  | Transport.resp r =>
    if r.status_code = 200 then
      match jnum (lookupStr r.json "lastPrice"),
            jnum (lookupStr r.json "priceChangePercent"),
            jnum (lookupStr r.json "highPrice"),
            jnum (lookupStr r.json "lowPrice"),
            jnum (lookupStr r.json "volume") with
      | some p, some c, some h, some l, some v =>
          some [("price", JVal.num p), ("change_24h", JVal.num c),
                ("high_24h", JVal.num h), ("low_24h", JVal.num l),
                ("volume_24h", JVal.num v)]
      | _, _, _, _, _ => none
    else none

/-- The symbol_map dict of get_coingecko_price. -/
def symbol_map : List (String × String) :=
  [("BTC", "bitcoin"), ("ETH", "ethereum"), ("BNB", "binancecoin"),
   ("ADA", "cardano"), ("SOL", "solana"), ("XRP", "ripple"),
   ("DOGE", "dogecoin"), ("MATIC", "polygon"), ("DOT", "polkadot"),
   ("AVAX", "avalanche-2"), ("LINK", "chainlink"), ("UNI", "uniswap"),
   ("LTC", "litecoin"), ("BCH", "bitcoin-cash"), ("ATOM", "cosmos"),
   ("ALGO", "algorand"), ("VET", "vechain"), ("FIL", "filecoin"),
   ("TRX", "tron"), ("ETC", "ethereum-classic"), ("MANA", "decentraland")]

/-- coin_id = symbol_map.get(symbol, symbol.lower()). -/
def coin_id (symbol : String) : String :=
  (lookupStr symbol_map symbol).getD symbol.toLower

/-- get_coingecko_price of src/Dantemk1.py with the requests.get call
abstracted.  On 200, if the coin id keys an object in the body, the price
is that object at key usd passed through unchanged; the change and volume
fields use .get with default 0.  A missing usd key, a non-object coin
entry, a missing coin id, or any other status become None via the methods
try/except. -/
def get_coingecko_price (symbol : String) (t : Transport) : Option PyDict :=
  match t with
  | Transport.fail => none
  | Transport.resp r =>
    if r.status_code = 200 then
      match lookupStr r.json (coin_id symbol) with
      | some (JVal.obj coin) =>
          match lookupStr coin "usd" with
          | some v =>
              some [("price", v),
                    ("change_24h", (lookupStr coin "usd_24h_change").getD (JVal.num 0)),
                    ("volume_24h", (lookupStr coin "usd_24h_vol").getD (JVal.num 0))]
          | none => none
      | some _ => none
      | none => none
    else none

/-- get_cryptocompare_price of src/Dantemk1.py with the requests.get call
abstracted.  On 200 it requires RAW, then the symbol under RAW, then USD
under that, then PRICE; the change and volume fields use .get with default
0; every failing access becomes None via the methods try/except. -/
def get_cryptocompare_price (symbol : String) (t : Transport) : Option PyDict :=
  match t with
  | Transport.fail => none
  | Transport.resp r =>
    if r.status_code = 200 then
      match lookupStr r.json "RAW" with
      | some (JVal.obj rawTable) =>
          match lookupStr rawTable symbol with
          | some (JVal.obj symEntry) =>
              match lookupStr symEntry "USD" with
              | some (JVal.obj raw) =>
                  match lookupStr raw "PRICE" with
                  | some v =>
                      some [("price", v),
                            ("change_24h", (lookupStr raw "CHANGEPCT24HOUR").getD (JVal.num 0)),
                            ("volume_24h", (lookupStr raw "VOLUME24HOUR").getD (JVal.num 0))]
                  | none => none
              | _ => none
          | _ => none
      | _ => none
    else none

/-- What one provider method call does for a given symbol when invoked:
raise (only possible for the abstract environment, the three concrete
methods swallow their exceptions), return None, or return a dict. -/
inductive MethodOutcome where
  | exn
  | noData
  | dict (d : PyDict)

/-- Python truthiness of the value a method returned, as tested by the
if data: line of the fallback loop: only a nonempty dict is truthy. -/
def usable : MethodOutcome → Bool
  | MethodOutcome.dict d => !d.isEmpty
  | _ => false

/-- Result of one get_price_with_fallbacks call: the returned value, the
final rate limiter state, the providers for which check_rate_limit was
consulted (in order), and the providers whose method was actually invoked
(in order). -/
structure FetchResult where
  result : Option PyDict
  state : RateState
  checked : List String
  called : List String

/-- The provider loop of get_price_with_fallbacks over a list of provider
names.  clock i is the time.time value seen by the check_rate_limit call
of iteration i.  A rejected provider is skipped; an invoked method that
raises or returns falsy data advances to the next provider; a truthy dict
gets source set to the provider name and is returned at once. -/
def fallbacksGo (outcome : String → MethodOutcome) (clock : Nat → ℚ) :
    List String → Nat → RateState → List String → List String → FetchResult
  | [], _, s, checked, called => ⟨none, s, checked, called⟩
  | ex :: rest, i, s, checked, called =>
    let r := check_rate_limit s ex (clock i)
    if r.1 then
      match outcome ex with
      | MethodOutcome.exn =>
          fallbacksGo outcome clock rest (i + 1) r.2 (checked ++ [ex]) (called ++ [ex])
      | MethodOutcome.noData =>
          fallbacksGo outcome clock rest (i + 1) r.2 (checked ++ [ex]) (called ++ [ex])
      | MethodOutcome.dict d =>
          if d.isEmpty then
            fallbacksGo outcome clock rest (i + 1) r.2 (checked ++ [ex]) (called ++ [ex])
          else
            ⟨some (setEntry d "source" (JVal.str ex)), r.2, checked ++ [ex], called ++ [ex]⟩
    else
      fallbacksGo outcome clock rest (i + 1) r.2 (checked ++ [ex]) called

/-- The methods list of get_price_with_fallbacks, in source order. -/
def methodsList : List String := ["binance", "coingecko", "cryptocompare"]

/-- get_price_with_fallbacks of src/Dantemk1.py.  The outcome environment
says what each provider method returns for each symbol if invoked. -/
def get_price_with_fallbacks (outcome : String → String → MethodOutcome)
    (clock : Nat → ℚ) (s : RateState) (symbol : String) : FetchResult :=
  fallbacksGo (fun ex => outcome ex symbol) clock methodsList 0 s [] []

/-- Lift a method return value to a MethodOutcome. -/
def outcomeOf : Option PyDict → MethodOutcome
  | none => MethodOutcome.noData
  | some d => MethodOutcome.dict d

/-- The outcome environment induced by the three concrete provider
methods, given the transport behavior of each provider for this fetch.
None of them can produce exn: their exceptions are swallowed internally. -/
def methodOutcomes (tr : String → Transport) (ex : String) (symbol : String) :
    MethodOutcome :=
  if ex = "binance" then outcomeOf (get_binance_price (tr ex))
  else if ex = "coingecko" then outcomeOf (get_coingecko_price symbol (tr ex))
  else if ex = "cryptocompare" then outcomeOf (get_cryptocompare_price symbol (tr ex))
  else MethodOutcome.noData

/-- check_rate_limit written with its let expanded, for rewriting. -/
theorem check_rate_limit_eq (s : RateState) (ex : String) (now : ℚ) :
    check_rate_limit s ex now =
      if (pruneWindow now (getWindow s ex)).length < limitFor ex then
        (true, ⟨setEntry s.rate_limits ex (pruneWindow now (getWindow s ex) ++ [now])⟩)
      else
        (false, ⟨setEntry s.rate_limits ex (pruneWindow now (getWindow s ex))⟩) := rfl

/-- Looking up a key after a dict update. -/
theorem lookupStr_setEntry {β : Type} (m : List (String × β)) (k k2 : String) (v : β) :
    lookupStr (setEntry m k v) k2 = if k = k2 then some v else lookupStr m k2 := by
  induction m with
  | nil => simp [setEntry, lookupStr]
  | cons hd tl ih =>
    obtain ⟨k0, v0⟩ := hd
    by_cases h0 : k0 = k
    · subst h0
      by_cases h2 : k0 = k2 <;> simp [setEntry, lookupStr, h2]
    · by_cases h2 : k0 = k2
      · subst h2
        have hk : ¬ k = k0 := fun h => h0 h.symm
        simp [setEntry, lookupStr, h0, hk]
      · simp [setEntry, lookupStr, h0, h2, ih]

/-- A check for one exchange does not touch the window of another. -/
theorem getWindow_check_other (s : RateState) (ex ex2 : String) (now : ℚ)
    (h : ¬ ex = ex2) :
    getWindow (check_rate_limit s ex now).2 ex2 = getWindow s ex2 := by
  by_cases hlt : (pruneWindow now (getWindow s ex)).length < limitFor ex
  · rw [check_rate_limit_eq, if_pos hlt]
    simp [getWindow, lookupStr_setEntry, h]
  · rw [check_rate_limit_eq, if_neg hlt]
    simp [getWindow, lookupStr_setEntry, h]

/-- The admitted branch of check_rate_limit. -/
theorem check_pass (s : RateState) (ex : String) (now : ℚ)
    (h : (pruneWindow now (getWindow s ex)).length < limitFor ex) :
    (check_rate_limit s ex now).1 = true ∧
    getWindow (check_rate_limit s ex now).2 ex =
      pruneWindow now (getWindow s ex) ++ [now] := by
  rw [check_rate_limit_eq, if_pos h]
  exact ⟨rfl, by simp [getWindow, lookupStr_setEntry]⟩

/-- The rejected branch of check_rate_limit. -/
theorem check_reject (s : RateState) (ex : String) (now : ℚ)
    (h : ¬ (pruneWindow now (getWindow s ex)).length < limitFor ex) :
    (check_rate_limit s ex now).1 = false ∧
    getWindow (check_rate_limit s ex now).2 ex = pruneWindow now (getWindow s ex) := by
  rw [check_rate_limit_eq, if_neg h]
  exact ⟨rfl, by simp [getWindow, lookupStr_setEntry]⟩

/-- Every ceiling, configured or defaulted, is positive. -/
theorem limitFor_pos (ex : String) : 0 < limitFor ex := by
  simp only [limitFor, limits, lookupStr]
  split_ifs <;> simp

/-- One check_rate_limit call keeps every window within its ceiling. -/
theorem window_bound_step (s : RateState) (ex0 : String) (now : ℚ)
    (h : ∀ ex, (getWindow s ex).length ≤ limitFor ex) (ex : String) :
    (getWindow (check_rate_limit s ex0 now).2 ex).length ≤ limitFor ex := by
  by_cases hx : ex0 = ex
  · subst hx
    by_cases hlt : (pruneWindow now (getWindow s ex0)).length < limitFor ex0
    · rw [(check_pass s ex0 now hlt).2]
      simp only [List.length_append, List.length_singleton]
      omega
    · rw [(check_reject s ex0 now hlt).2]
      exact le_trans (List.length_filter_le _ _) (h ex0)
  · rw [getWindow_check_other s ex0 ex now hx]
    exact h ex

/-- Any run of check_rate_limit calls keeps every window within its
ceiling, provided it started within the ceilings. -/
theorem runAdmits_window_bound (calls : List (String × ℚ)) :
    ∀ s : RateState, (∀ ex, (getWindow s ex).length ≤ limitFor ex) →
      ∀ ex, (getWindow (runAdmits calls s).2 ex).length ≤ limitFor ex := by
  induction calls with
  | nil => intro s h ex; simpa [runAdmits] using h ex
  | cons c rest ih =>
    intro s h ex
    obtain ⟨ex0, t⟩ := c
    simp only [runAdmits]
    exact ih _ (fun e => window_bound_step s ex0 t h e) ex

/-- Pruning at the very instant of the timestamps keeps them all. -/
theorem pruneWindow_replicate_now (t : ℚ) (n : Nat) :
    pruneWindow t (List.replicate n t) = List.replicate n t := by
  rw [pruneWindow, List.filter_eq_self]
  intro a ha
  rw [List.eq_of_mem_replicate ha]
  norm_num

/-- Pruning strictly more than 60 seconds later drops everything. -/
theorem pruneWindow_replicate_old (tq t : ℚ) (n : Nat) (h : t + 60 < tq) :
    pruneWindow tq (List.replicate n t) = [] := by
  rw [pruneWindow, List.filter_eq_nil_iff]
  intro a ha
  rw [List.eq_of_mem_replicate ha]
  simp only [decide_eq_true_eq, not_lt]
  linarith

/-- k successive same-instant calls from a window of m copies of t all
admit, as long as m + k stays within the ceiling. -/
theorem repeatAdmit_run (ex : String) (t : ℚ) :
    ∀ (k m : Nat) (s : RateState), getWindow s ex = List.replicate m t →
      m + k ≤ limitFor ex →
      (repeatAdmit ex t k s).1 = List.replicate k true ∧
      getWindow (repeatAdmit ex t k s).2 ex = List.replicate (m + k) t := by
  intro k
  induction k with
  | zero =>
    intro m s hw hk
    simpa [repeatAdmit, runAdmits] using hw
  | succ k ih =>
    intro m s hw hk
    have hlt : (pruneWindow t (getWindow s ex)).length < limitFor ex := by
      rw [hw, pruneWindow_replicate_now]
      simp only [List.length_replicate]
      omega
    have hadm := check_pass s ex t hlt
    have hwin : getWindow (check_rate_limit s ex t).2 ex = List.replicate (m + 1) t := by
      rw [hadm.2, hw, pruneWindow_replicate_now, ← List.replicate_succ' m t]
    have hrec := ih (m + 1) (check_rate_limit s ex t).2 hwin (by omega)
    constructor
    · show (runAdmits (List.replicate (k + 1) (ex, t)) s).1 = List.replicate (k + 1) true
      rw [List.replicate_succ, runAdmits]
      simp only [hadm.1]
      rw [List.replicate_succ]
      exact congrArg (List.cons true) hrec.1
    · show getWindow (runAdmits (List.replicate (k + 1) (ex, t)) s).2 ex =
        List.replicate (m + (k + 1)) t
      rw [List.replicate_succ, runAdmits]
      have := hrec.2
      rw [show m + 1 + k = m + (k + 1) by omega] at this
      exact this

/-- The providers actually invoked extend the accumulator by a sublist of
the remaining provider list, in order. -/
theorem fallbacksGo_called_extends (outcome : String → MethodOutcome) (clock : Nat → ℚ) :
    ∀ (L : List String) (i : Nat) (s : RateState) (checked called : List String),
      ∃ su, (fallbacksGo outcome clock L i s checked called).called = called ++ su ∧
        List.Sublist su L := by
  intro L
  induction L with
  | nil =>
    intro i s checked called
    exact ⟨[], by simp [fallbacksGo], List.nil_sublist _⟩
  | cons ex rest ih =>
    intro i s checked called
    simp only [fallbacksGo]
    cases hb : (check_rate_limit s ex (clock i)).1 with
    | false =>
      simp only [hb, Bool.false_eq_true, if_false]
      obtain ⟨su, h1, h2⟩ :=
        ih (i + 1) (check_rate_limit s ex (clock i)).2 (checked ++ [ex]) called
      exact ⟨su, h1, h2.cons ex⟩
    | true =>
      simp only [hb, if_true]
      cases ho : outcome ex with
      | exn =>
        obtain ⟨su, h1, h2⟩ :=
          ih (i + 1) (check_rate_limit s ex (clock i)).2 (checked ++ [ex]) (called ++ [ex])
        exact ⟨ex :: su, by rw [h1]; simp, h2.cons₂ ex⟩
      | noData =>
        obtain ⟨su, h1, h2⟩ :=
          ih (i + 1) (check_rate_limit s ex (clock i)).2 (checked ++ [ex]) (called ++ [ex])
        exact ⟨ex :: su, by rw [h1]; simp, h2.cons₂ ex⟩
      | dict d =>
        by_cases hde : d.isEmpty
        · simp only [hde, if_true]
          obtain ⟨su, h1, h2⟩ :=
            ih (i + 1) (check_rate_limit s ex (clock i)).2 (checked ++ [ex]) (called ++ [ex])
          exact ⟨ex :: su, by rw [h1]; simp, h2.cons₂ ex⟩
        · simp only [hde, if_false]
          exact ⟨[ex], by simp, (List.nil_sublist rest).cons₂ ex⟩

/-- The providers consulted for rate limiting extend the accumulator by an
initial segment of the remaining provider list. -/
theorem fallbacksGo_checked_take (outcome : String → MethodOutcome) (clock : Nat → ℚ) :
    ∀ (L : List String) (i : Nat) (s : RateState) (checked called : List String),
      ∃ n, (fallbacksGo outcome clock L i s checked called).checked =
        checked ++ L.take n := by
  intro L
  induction L with
  | nil =>
    intro i s checked called
    exact ⟨0, by simp [fallbacksGo]⟩
  | cons ex rest ih =>
    intro i s checked called
    simp only [fallbacksGo]
    cases hb : (check_rate_limit s ex (clock i)).1 with
    | false =>
      simp only [hb, Bool.false_eq_true, if_false]
      obtain ⟨n, h1⟩ :=
        ih (i + 1) (check_rate_limit s ex (clock i)).2 (checked ++ [ex]) called
      exact ⟨n + 1, by rw [h1]; simp [List.take_succ_cons]⟩
    | true =>
      simp only [hb, if_true]
      cases ho : outcome ex with
      | exn =>
        obtain ⟨n, h1⟩ :=
          ih (i + 1) (check_rate_limit s ex (clock i)).2 (checked ++ [ex]) (called ++ [ex])
        exact ⟨n + 1, by rw [h1]; simp [List.take_succ_cons]⟩
      | noData =>
        obtain ⟨n, h1⟩ :=
          ih (i + 1) (check_rate_limit s ex (clock i)).2 (checked ++ [ex]) (called ++ [ex])
        exact ⟨n + 1, by rw [h1]; simp [List.take_succ_cons]⟩
      | dict d =>
        by_cases hde : d.isEmpty
        · simp only [hde, if_true]
          obtain ⟨n, h1⟩ :=
            ih (i + 1) (check_rate_limit s ex (clock i)).2 (checked ++ [ex]) (called ++ [ex])
          exact ⟨n + 1, by rw [h1]; simp [List.take_succ_cons]⟩
        · simp only [hde, if_false]
          exact ⟨1, by simp [List.take_succ_cons]⟩

/-- If no remaining provider has usable data, the loop ends with none. -/
theorem fallbacksGo_none_of_no_usable (outcome : String → MethodOutcome) (clock : Nat → ℚ) :
    ∀ (L : List String) (i : Nat) (s : RateState) (checked called : List String),
      (∀ ex ∈ L, usable (outcome ex) = false) →
      (fallbacksGo outcome clock L i s checked called).result = none := by
  intro L
  induction L with
  | nil =>
    intro i s checked called h
    simp [fallbacksGo]
  | cons ex rest ih =>
    intro i s checked called h
    have hex := h ex (List.mem_cons_self _ _)
    have hrest : ∀ e ∈ rest, usable (outcome e) = false :=
      fun e he => h e (List.mem_cons_of_mem _ he)
    simp only [fallbacksGo]
    cases hb : (check_rate_limit s ex (clock i)).1 with
    | false =>
      simp only [hb, Bool.false_eq_true, if_false]
      exact ih (i + 1) _ _ _ hrest
    | true =>
      simp only [hb, if_true]
      cases ho : outcome ex with
      | exn => exact ih (i + 1) _ _ _ hrest
      | noData => exact ih (i + 1) _ _ _ hrest
      | dict d =>
        have hde : d.isEmpty = true := by
          rw [ho] at hex
          simpa [usable] using hex
        simp only [hde, if_true]
        exact ih (i + 1) _ _ _ hrest

/-- If every remaining provider is unusable or has a full window at the
instant of its own check, the loop ends with none. -/
theorem fallbacksGo_none_of_blocked (outcome : String → MethodOutcome) (clock : Nat → ℚ) :
    ∀ (L : List String) (i : Nat) (s : RateState) (checked called : List String),
      L.Nodup →
      (∀ j ex, L.get? j = some ex →
        usable (outcome ex) = false ∨
        limitFor ex ≤ (pruneWindow (clock (i + j)) (getWindow s ex)).length) →
      (fallbacksGo outcome clock L i s checked called).result = none := by
  intro L
  induction L with
  | nil =>
    intro i s checked called _ _
    simp [fallbacksGo]
  | cons ex rest ih =>
    intro i s checked called hnd h
    have hnotmem : ex ∉ rest := (List.nodup_cons.mp hnd).1
    have hndrest : rest.Nodup := (List.nodup_cons.mp hnd).2
    have hrest : ∀ j e, rest.get? j = some e →
        usable (outcome e) = false ∨
        limitFor e ≤
          (pruneWindow (clock (i + 1 + j)) (getWindow (check_rate_limit s ex (clock i)).2 e)).length := by
      intro j e hj
      have he : e ∈ rest := List.get?_mem hj
      have hne : ¬ ex = e := fun hh => hnotmem (hh ▸ he)
      have := h (j + 1) e (by simpa using hj)
      rw [getWindow_check_other s ex e (clock i) hne]
      rw [show i + 1 + j = i + (j + 1) by omega]
      exact this
    simp only [fallbacksGo]
    rcases h 0 ex rfl with hun | hfull
    · cases hb : (check_rate_limit s ex (clock i)).1 with
      | false =>
        simp only [hb, Bool.false_eq_true, if_false]
        exact ih (i + 1) _ _ _ hndrest hrest
      | true =>
        simp only [hb, if_true]
        cases ho : outcome ex with
        | exn => exact ih (i + 1) _ _ _ hndrest hrest
        | noData => exact ih (i + 1) _ _ _ hndrest hrest
        | dict d =>
          have hde : d.isEmpty = true := by
            rw [ho] at hun
            simpa [usable] using hun
          simp only [hde, if_true]
          exact ih (i + 1) _ _ _ hndrest hrest
    · have hb : (check_rate_limit s ex (clock i)).1 = false := by
        have h0 : ¬ (pruneWindow (clock i) (getWindow s ex)).length < limitFor ex := by
          simp only [Nat.add_zero] at hfull
          omega
        exact (check_reject s ex (clock i) h0).1
      simp only [hb, Bool.false_eq_true, if_false]
      exact ih (i + 1) _ _ _ hndrest hrest

/-- One loop iteration over a provider without usable data just advances,
recording the rate check and, when admitted, the method call. -/
theorem fallbacksGo_step_skip (outcome : String → MethodOutcome) (clock : Nat → ℚ)
    (ex : String) (rest : List String) (i : Nat) (s : RateState)
    (checked called : List String)
    (h : usable (outcome ex) = false) :
    fallbacksGo outcome clock (ex :: rest) i s checked called =
      fallbacksGo outcome clock rest (i + 1) (check_rate_limit s ex (clock i)).2
        (checked ++ [ex])
        (if (check_rate_limit s ex (clock i)).1 then called ++ [ex] else called) := by
  simp only [fallbacksGo]
  cases hb : (check_rate_limit s ex (clock i)).1 with
  | false => simp [hb]
  | true =>
    simp only [hb, if_true]
    cases ho : outcome ex with
    | exn => rfl
    | noData => rfl
    | dict d =>
      rw [ho] at h
      have hde : d.isEmpty = true := by simpa [usable] using h
      simp [hde]

/-- One loop iteration over an admitted provider with usable data returns
at once with source stamped. -/
theorem fallbacksGo_step_success (outcome : String → MethodOutcome) (clock : Nat → ℚ)
    (ex : String) (rest : List String) (i : Nat) (s : RateState)
    (checked called : List String) (d : PyDict)
    (ho : outcome ex = MethodOutcome.dict d) (hd : d.isEmpty = false)
    (hadm : (check_rate_limit s ex (clock i)).1 = true) :
    fallbacksGo outcome clock (ex :: rest) i s checked called =
      ⟨some (setEntry d "source" (JVal.str ex)), (check_rate_limit s ex (clock i)).2,
        checked ++ [ex], called ++ [ex]⟩ := by
  simp only [fallbacksGo, hadm, if_true, ho]
  simp [hd]

/-- Over distinct providers that all have empty windows and no usable
data, the loop admits and calls every one of them and ends with none. -/
theorem fallbacksGo_all_skip_admitted (outcome : String → MethodOutcome) (clock : Nat → ℚ) :
    ∀ (L : List String) (i : Nat) (s : RateState) (checked called : List String),
      (∀ ex ∈ L, usable (outcome ex) = false) →
      (∀ j ex, L.get? j = some ex → getWindow s ex = []) →
      L.Nodup →
      (fallbacksGo outcome clock L i s checked called).result = none ∧
      (fallbacksGo outcome clock L i s checked called).checked = checked ++ L ∧
      (fallbacksGo outcome clock L i s checked called).called = called ++ L := by
  intro L
  induction L with
  | nil =>
    intro i s checked called _ _ _
    simp [fallbacksGo]
  | cons ex rest ih =>
    intro i s checked called hu hw hnd
    have hwex : getWindow s ex = [] := hw 0 ex rfl
    have hb : (check_rate_limit s ex (clock i)).1 = true :=
      (check_pass s ex (clock i)
        (by rw [hwex]; simpa [pruneWindow] using limitFor_pos ex)).1
    have hrest_w : ∀ j e, rest.get? j = some e →
        getWindow (check_rate_limit s ex (clock i)).2 e = [] := by
      intro j e hj
      have he : e ∈ rest := List.get?_mem hj
      have hne : ¬ ex = e := fun hh => (List.nodup_cons.mp hnd).1 (hh ▸ he)
      rw [getWindow_check_other s ex e (clock i) hne]
      exact hw (j + 1) e (by simpa using hj)
    have hu_rest : ∀ e ∈ rest, usable (outcome e) = false :=
      fun e he => hu e (List.mem_cons_of_mem _ he)
    rw [fallbacksGo_step_skip outcome clock ex rest i s checked called
      (hu ex (List.mem_cons_self _ _)), hb]
    simp only [if_true]
    obtain ⟨hres, hch, hca⟩ :=
      ih (i + 1) _ (checked ++ [ex]) (called ++ [ex]) hu_rest hrest_w
        (List.nodup_cons.mp hnd).2
    refine ⟨hres, ?_, ?_⟩
    · rw [hch]; simp
    · rw [hca]; simp

/-- Claim C1: for every provider name and instant now, tryAdmit
(check_rate_limit) first removes from that providers window exactly the
timestamps whose age is 60 seconds or more (one exactly 60s old is
dropped), keeping the survivors in order; if the remaining count is
strictly less than the providers requestsPerMinute ceiling it appends now
and returns true, and otherwise it returns false leaving the window
exactly the pruned one. -/
theorem claimC1_tryAdmit_prune_admit_reject (s : RateState) (ex : String) (now : ℚ) :
    ((∀ u, u ∈ pruneWindow now (getWindow s ex) ↔
        u ∈ getWindow s ex ∧ ¬ 60 ≤ now - u) ∧
      List.Sublist (pruneWindow now (getWindow s ex)) (getWindow s ex)) ∧
    ((pruneWindow now (getWindow s ex)).length < limitFor ex →
      (check_rate_limit s ex now).1 = true ∧
      getWindow (check_rate_limit s ex now).2 ex =
        pruneWindow now (getWindow s ex) ++ [now]) ∧
    (¬ (pruneWindow now (getWindow s ex)).length < limitFor ex →
      (check_rate_limit s ex now).1 = false ∧
      getWindow (check_rate_limit s ex now).2 ex =
        pruneWindow now (getWindow s ex)) := by
  refine ⟨⟨fun u => ?_, List.filter_sublist _⟩,
    fun h => check_pass s ex now h, fun h => check_reject s ex now h⟩
  simp [pruneWindow, List.mem_filter, not_le]

/-- Witness for C1: a 60s-old timestamp is dropped while a 30s-old one is
kept and admission appends now; a full fresh window at the default-limit
provider cryptocompare is rejected. -/
theorem claimC1_tryAdmit_prune_admit_reject_witness :
    (check_rate_limit ⟨[("binance", [0, 30])]⟩ "binance" 60).1 = true ∧
    getWindow (check_rate_limit ⟨[("binance", [0, 30])]⟩ "binance" 60).2 "binance" = [30, 60] ∧
    (check_rate_limit ⟨[("cryptocompare", [7, 7, 7, 7, 7])]⟩ "cryptocompare" 7).1 = false := by
  have h1 := claimC1_tryAdmit_prune_admit_reject ⟨[("binance", [0, 30])]⟩ "binance" 60
  have h2 := claimC1_tryAdmit_prune_admit_reject
    ⟨[("cryptocompare", [7, 7, 7, 7, 7])]⟩ "cryptocompare" 7
  have e1 : pruneWindow 60 (getWindow ⟨[("binance", [0, 30])]⟩ "binance") = [30] := by
    simp [pruneWindow, getWindow, lookupStr, (by norm_num : ¬ ((60:ℚ) < 60)),
      (by norm_num : (60:ℚ) - 30 < 60)]
  have e2 : pruneWindow 7 (getWindow ⟨[("cryptocompare", [7, 7, 7, 7, 7])]⟩ "cryptocompare")
      = [7, 7, 7, 7, 7] := by
    simp [pruneWindow, getWindow, lookupStr, (by norm_num : (0:ℚ) < 60)]
  have ha := h1.2.1 (by rw [e1]; simp [limitFor, limits, lookupStr])
  have hr := h2.2.2 (by rw [e2]; simp [limitFor, limits, lookupStr])
  refine ⟨ha.1, ?_, hr.1⟩
  rw [ha.2, e1]
  simp

/-- Claim C5: from the empty state, the first N same-instant tryAdmit
calls for a provider all return true, the (N+1)th call at that instant
returns false, and a further call at any instant beyond t + 60 returns
true again, N being the providers ceiling. -/
theorem claimC5_burst_reject_recover (ex : String) (t t' : ℚ) (h : t + 60 < t') :
    (repeatAdmit ex t (limitFor ex) initState).1 = List.replicate (limitFor ex) true ∧
    (check_rate_limit (repeatAdmit ex t (limitFor ex) initState).2 ex t).1 = false ∧
    (check_rate_limit
      (check_rate_limit (repeatAdmit ex t (limitFor ex) initState).2 ex t).2 ex t').1 = true := by
  have hw0 : getWindow initState ex = List.replicate 0 t := by
    simp [getWindow, initState, lookupStr]
  have hrun := repeatAdmit_run ex t (limitFor ex) 0 initState hw0 (by omega)
  have hwin : getWindow (repeatAdmit ex t (limitFor ex) initState).2 ex
      = List.replicate (limitFor ex) t := by simpa using hrun.2
  have hrej : ¬ (pruneWindow t
      (getWindow (repeatAdmit ex t (limitFor ex) initState).2 ex)).length < limitFor ex := by
    rw [hwin, pruneWindow_replicate_now]
    simp
  have hfalse := check_reject _ ex t hrej
  have hwin2 : getWindow
      (check_rate_limit (repeatAdmit ex t (limitFor ex) initState).2 ex t).2 ex
      = List.replicate (limitFor ex) t := by
    rw [hfalse.2, hwin, pruneWindow_replicate_now]
  have hadm : (pruneWindow t' (getWindow
      (check_rate_limit (repeatAdmit ex t (limitFor ex) initState).2 ex t).2 ex)).length
      < limitFor ex := by
    rw [hwin2, pruneWindow_replicate_old t' t _ h]
    simpa using limitFor_pos ex
  exact ⟨hrun.1, hfalse.1, (check_pass _ ex t' hadm).1⟩

/-- Witness for C5 at cryptocompare (ceiling 5), burst at t = 0, recovery
at t = 100. -/
theorem claimC5_burst_reject_recover_witness :
    (0:ℚ) + 60 < 100 ∧
    ((repeatAdmit "cryptocompare" 0 (limitFor "cryptocompare") initState).1 =
      List.replicate (limitFor "cryptocompare") true ∧
    (check_rate_limit (repeatAdmit "cryptocompare" 0 (limitFor "cryptocompare") initState).2
      "cryptocompare" 0).1 = false ∧
    (check_rate_limit (check_rate_limit
      (repeatAdmit "cryptocompare" 0 (limitFor "cryptocompare") initState).2
      "cryptocompare" 0).2 "cryptocompare" 100).1 = true) :=
  ⟨by norm_num, claimC5_burst_reject_recover "cryptocompare" 0 100 (by norm_num)⟩

/-- Claim C6: after any sequence of tryAdmit calls from the empty state,
every providers window holds at most requestsPerMinute timestamps, so the
window never grows without bound under repeated calls. -/
theorem claimC6_window_bounded (calls : List (String × ℚ)) (ex : String) :
    (getWindow (runAdmits calls initState).2 ex).length ≤ limitFor ex :=
  runAdmits_window_bound calls initState
    (fun e => by simp [getWindow, initState, lookupStr]) ex

/-- Claim C8: a provider name with no configured ceiling does not fail:
its ceiling defaults to 5, the admit rule is the usual one with that
ceiling, and on first use an empty window is lazily created and stored
under the new key. -/
theorem claimC8_unknown_provider_default (ex : String) (now : ℚ) (s : RateState)
    (h : lookupStr limits ex = none) :
    limitFor ex = 5 ∧
    ((pruneWindow now (getWindow s ex)).length < 5 →
      (check_rate_limit s ex now).1 = true ∧
      getWindow (check_rate_limit s ex now).2 ex =
        pruneWindow now (getWindow s ex) ++ [now]) ∧
    (¬ (pruneWindow now (getWindow s ex)).length < 5 →
      (check_rate_limit s ex now).1 = false) ∧
    (lookupStr s.rate_limits ex = none →
      getWindow s ex = [] ∧
      lookupStr (check_rate_limit s ex now).2.rate_limits ex = some [now]) := by
  have hl : limitFor ex = 5 := by simp [limitFor, h]
  refine ⟨hl, fun hlt => check_pass s ex now (by rw [hl]; exact hlt),
    fun hge => (check_reject s ex now (by rw [hl]; exact hge)).1, fun habs => ?_⟩
  have hw : getWindow s ex = [] := by simp [getWindow, habs]
  have hlt : (pruneWindow now (getWindow s ex)).length < limitFor ex := by
    rw [hw]
    simpa [pruneWindow] using limitFor_pos ex
  refine ⟨hw, ?_⟩
  rw [check_rate_limit_eq, if_pos hlt]
  simp [lookupStr_setEntry, hw, pruneWindow]

/-- Witness for C8 at the unconfigured provider kraken. -/
theorem claimC8_unknown_provider_default_witness :
    lookupStr limits "kraken" = none ∧
    limitFor "kraken" = 5 ∧
    (check_rate_limit initState "kraken" 0).1 = true ∧
    lookupStr (check_rate_limit initState "kraken" 0).2.rate_limits "kraken" = some [0] := by
  have hnone : lookupStr limits "kraken" = none := by simp [limits, lookupStr]
  have h := claimC8_unknown_provider_default "kraken" 0 initState hnone
  have habs : lookupStr initState.rate_limits "kraken" = none := by
    simp [initState, lookupStr]
  have h4 := h.2.2.2 habs
  have hadm := h.2.1 (by simp [getWindow, initState, lookupStr, pruneWindow])
  exact ⟨hnone, h.1, hadm.1, h4.2⟩

/-- Claim C2: get_price_with_fallbacks tries providers in the fixed
ascending priority order binance, coingecko, cryptocompare and stops at
the first usable quote, stamping its source: if the binance attempt fails
and coingecko yields data (and is admitted by the rate limiter), the
result is the coingecko dict with source coingecko, exactly binance and
coingecko are consulted, and cryptocompare is never consulted nor
invoked. -/
theorem claimC2_priority_short_circuit (outcome : String → String → MethodOutcome)
    (clock : Nat → ℚ) (s : RateState) (symbol : String) (d : PyDict)
    (hb : usable (outcome "binance" symbol) = false)
    (hc : outcome "coingecko" symbol = MethodOutcome.dict d)
    (hd : d.isEmpty = false)
    (hcap : (pruneWindow (clock 1) (getWindow s "coingecko")).length <
      limitFor "coingecko") :
    (get_price_with_fallbacks outcome clock s symbol).result =
      some (setEntry d "source" (JVal.str "coingecko")) ∧
    (get_price_with_fallbacks outcome clock s symbol).checked =
      ["binance", "coingecko"] ∧
    "cryptocompare" ∉ (get_price_with_fallbacks outcome clock s symbol).checked ∧
    "cryptocompare" ∉ (get_price_with_fallbacks outcome clock s symbol).called := by
  have hstep1 := fallbacksGo_step_skip (fun ex => outcome ex symbol) clock "binance"
    ["coingecko", "cryptocompare"] 0 s [] [] hb
  have hw : getWindow (check_rate_limit s "binance" (clock 0)).2 "coingecko" =
      getWindow s "coingecko" :=
    getWindow_check_other s "binance" "coingecko" (clock 0) (by simp)
  have hadm2 : (check_rate_limit (check_rate_limit s "binance" (clock 0)).2
      "coingecko" (clock 1)).1 = true :=
    (check_pass _ "coingecko" (clock 1) (by rw [hw]; exact hcap)).1
  have hstep2 := fallbacksGo_step_success (fun ex => outcome ex symbol) clock "coingecko"
    ["cryptocompare"] 1 (check_rate_limit s "binance" (clock 0)).2 ["binance"]
    (if (check_rate_limit s "binance" (clock 0)).1 then ["binance"] else []) d hc hd hadm2
  have hchain : get_price_with_fallbacks outcome clock s symbol =
      ⟨some (setEntry d "source" (JVal.str "coingecko")),
        (check_rate_limit (check_rate_limit s "binance" (clock 0)).2
          "coingecko" (clock 1)).2,
        ["binance", "coingecko"],
        (if (check_rate_limit s "binance" (clock 0)).1 then ["binance"] else []) ++
          ["coingecko"]⟩ := by
    simp only [get_price_with_fallbacks, methodsList]
    rw [hstep1]
    simp only [List.nil_append]
    rw [hstep2]
    simp
  refine ⟨by rw [hchain], by rw [hchain], by rw [hchain]; simp, ?_⟩
  rw [hchain]
  cases (check_rate_limit s "binance" (clock 0)).1 <;> simp

/-- Witness for C2: binance has no data, coingecko yields a one-entry
dict; the fetch returns it with source coingecko and cryptocompare is
untouched. -/
theorem claimC2_priority_short_circuit_witness :
    (get_price_with_fallbacks
      (fun ex _ => if ex = "coingecko" then MethodOutcome.dict [("price", JVal.num 1)]
        else MethodOutcome.noData)
      (fun _ => 0) initState "BTC").result =
      some [("price", JVal.num 1), ("source", JVal.str "coingecko")] ∧
    "cryptocompare" ∉ (get_price_with_fallbacks
      (fun ex _ => if ex = "coingecko" then MethodOutcome.dict [("price", JVal.num 1)]
        else MethodOutcome.noData)
      (fun _ => 0) initState "BTC").called := by
  have h := claimC2_priority_short_circuit
    (fun ex _ => if ex = "coingecko" then MethodOutcome.dict [("price", JVal.num 1)]
      else MethodOutcome.noData)
    (fun _ => 0) initState "BTC" [("price", JVal.num 1)]
    (by simp [usable]) (by simp) (by simp)
    (by simp [pruneWindow, getWindow, initState, lookupStr, limitFor, limits])
  refine ⟨?_, h.2.2.2⟩
  rw [h.1]
  simp [setEntry]

/-- Claim C3: when every configured provider is rate-limited at the
moment of its check or yields no usable data (raises, returns None, or
returns a falsy payload), get_price_with_fallbacks returns the absent
signal none; being a total function of the environment, no provider
exception escapes it. -/
theorem claimC3_exhaustion_returns_none (outcome : String → String → MethodOutcome)
    (clock : Nat → ℚ) (s : RateState) (symbol : String)
    (h : ∀ j ex, methodsList.get? j = some ex →
      usable (outcome ex symbol) = false ∨
      limitFor ex ≤ (pruneWindow (clock j) (getWindow s ex)).length) :
    (get_price_with_fallbacks outcome clock s symbol).result = none := by
  apply fallbacksGo_none_of_blocked
  · simp [methodsList]
  · intro j ex hj
    simpa using h j ex hj

/-- Witness for C3: every provider raises; the fetch returns none. -/
theorem claimC3_exhaustion_returns_none_witness :
    (get_price_with_fallbacks (fun _ _ => MethodOutcome.exn) (fun _ => 0)
      initState "BTC").result = none :=
  claimC3_exhaustion_returns_none _ _ _ _ (fun _ _ _ => Or.inl rfl)

/-- Claim C10: any get_price_with_fallbacks call only ever consults and
invokes providers from the fixed ordered chain binance, coingecko,
cryptocompare (its consulted and invoked lists are ordered sublists of
that chain); the coinbase and kraken endpoints of the configured exchange
table are never consulted nor invoked. -/
theorem claimC10_fixed_chain (outcome : String → String → MethodOutcome)
    (clock : Nat → ℚ) (s : RateState) (symbol : String) :
    List.Sublist (get_price_with_fallbacks outcome clock s symbol).called methodsList ∧
    List.Sublist (get_price_with_fallbacks outcome clock s symbol).checked methodsList ∧
    ("coinbase", "https://api.exchange.coinbase.com") ∈ exchanges ∧
    ("kraken", "https://api.kraken.com/0/public") ∈ exchanges ∧
    "coinbase" ∉ (get_price_with_fallbacks outcome clock s symbol).checked ∧
    "kraken" ∉ (get_price_with_fallbacks outcome clock s symbol).checked ∧
    "coinbase" ∉ (get_price_with_fallbacks outcome clock s symbol).called ∧
    "kraken" ∉ (get_price_with_fallbacks outcome clock s symbol).called := by
  obtain ⟨su, hsu, hsub⟩ := fallbacksGo_called_extends (fun ex => outcome ex symbol)
    clock methodsList 0 s [] []
  obtain ⟨n, hn⟩ := fallbacksGo_checked_take (fun ex => outcome ex symbol)
    clock methodsList 0 s [] []
  have hcalled : (get_price_with_fallbacks outcome clock s symbol).called = su := by
    simpa [get_price_with_fallbacks] using hsu
  have hchecked : (get_price_with_fallbacks outcome clock s symbol).checked =
      methodsList.take n := by
    simpa [get_price_with_fallbacks] using hn
  have htake : List.Sublist (methodsList.take n) methodsList :=
    List.take_sublist n methodsList
  refine ⟨hcalled ▸ hsub, hchecked ▸ htake, by simp [exchanges], by simp [exchanges],
    ?_, ?_, ?_, ?_⟩
  · rw [hchecked]
    intro hmem
    have := List.take_subset n methodsList hmem
    simp [methodsList] at this
  · rw [hchecked]
    intro hmem
    have := List.take_subset n methodsList hmem
    simp [methodsList] at this
  · rw [hcalled]
    intro hmem
    have := hsub.subset hmem
    simp [methodsList] at this
  · rw [hcalled]
    intro hmem
    have := hsub.subset hmem
    simp [methodsList] at this

/-- Claim C4 as stated is false on the code: get_price_with_fallbacks has
no empty-symbol guard, so fetching "" still consults the rate limiter for
all three providers and invokes all three provider methods before
returning none. -/
theorem claimC4_counterexample :
    (get_price_with_fallbacks (fun _ _ => MethodOutcome.noData) (fun _ => 0)
      initState "").result = none ∧
    (get_price_with_fallbacks (fun _ _ => MethodOutcome.noData) (fun _ => 0)
      initState "").checked = ["binance", "coingecko", "cryptocompare"] ∧
    (get_price_with_fallbacks (fun _ _ => MethodOutcome.noData) (fun _ => 0)
      initState "").called = ["binance", "coingecko", "cryptocompare"] := by
  refine ⟨?_, ?_, ?_⟩ <;>
    simp [get_price_with_fallbacks, methodsList, fallbacksGo, check_rate_limit, getWindow,
      pruneWindow, limitFor, limits, initState, setEntry, lookupStr]

/-- Amended C4: fetching the empty symbol is not special-cased: from the
empty state the rate limiter is consulted for each provider in order and
every provider method is invoked with "", and the call returns absent
exactly because no attempt yields usable data. -/
theorem claimC4_amended_no_empty_guard (outcome : String → String → MethodOutcome)
    (clock : Nat → ℚ)
    (h : ∀ ex, usable (outcome ex "") = false) :
    (get_price_with_fallbacks outcome clock initState "").result = none ∧
    (get_price_with_fallbacks outcome clock initState "").checked =
      ["binance", "coingecko", "cryptocompare"] ∧
    (get_price_with_fallbacks outcome clock initState "").called =
      ["binance", "coingecko", "cryptocompare"] := by
  have hmain := fallbacksGo_all_skip_admitted (fun ex => outcome ex "") clock methodsList
    0 initState [] [] (fun ex _ => h ex)
    (fun j ex _ => by simp [getWindow, initState, lookupStr])
    (by simp [methodsList])
  simpa [get_price_with_fallbacks, methodsList] using hmain

/-- Witness for the amended C4: every provider returns None for "". -/
theorem claimC4_amended_no_empty_guard_witness :
    (get_price_with_fallbacks (fun _ _ => MethodOutcome.noData) (fun _ => 1)
      initState "").result = none ∧
    (get_price_with_fallbacks (fun _ _ => MethodOutcome.noData) (fun _ => 1)
      initState "").checked = ["binance", "coingecko", "cryptocompare"] ∧
    (get_price_with_fallbacks (fun _ _ => MethodOutcome.noData) (fun _ => 1)
      initState "").called = ["binance", "coingecko", "cryptocompare"] :=
  claimC4_amended_no_empty_guard _ _ (fun _ => rfl)

/-- Transport behavior of the C7 scenario: Binance answers HTTP 500 for
BTC; CoinGecko answers 200 with usd 67000.5 and usd_24h_change 2.3 for
bitcoin. -/
def scenarioTransport : String → Transport :=
  fun ex =>
    if ex = "binance" then Transport.resp ⟨500, []⟩
    else if ex = "coingecko" then
      Transport.resp ⟨200, [("bitcoin", JVal.obj
        [("usd", JVal.num (67000.5 : ℚ)), ("usd_24h_change", JVal.num (2.3 : ℚ))])]⟩
    else Transport.fail

/-- The C7 scenario fetch: get_price_with_fallbacks for BTC from the empty
state, with the three concrete provider methods driven by
scenarioTransport. -/
def scenarioFetch : FetchResult :=
  get_price_with_fallbacks (methodOutcomes scenarioTransport) (fun _ => 0) initState "BTC"

/-- Claim C7 as stated is false on the code: in the stated scenario the
fetch does return the CoinGecko price 67000.5, change 2.3 and source
coingecko, but the returned dict carries no symbol entry at all (the code
never stores the symbol in the result; callers keep it separately), so no
quote with symbol BTC is returned. -/
theorem claimC7_counterexample :
    scenarioFetch.result =
      some [("price", JVal.num (67000.5 : ℚ)), ("change_24h", JVal.num (2.3 : ℚ)),
            ("volume_24h", JVal.num 0), ("source", JVal.str "coingecko")] ∧
    lookupStr (scenarioFetch.result.getD []) "symbol" = none := by
  constructor <;>
    simp [scenarioFetch, get_price_with_fallbacks, methodsList, fallbacksGo,
      methodOutcomes, scenarioTransport, get_binance_price, get_coingecko_price,
      get_cryptocompare_price, coin_id, symbol_map, outcomeOf, check_rate_limit,
      getWindow, pruneWindow, limitFor, limits, initState, setEntry, lookupStr, jnum]

/-- Amended C7: a price dict built by get_coingecko_price from a
successful response passes price, change and volume through exactly as
supplied, and in the stated scenario the fetch returns the dict with
price 67000.5, change_24h 2.3, volume_24h 0 and source coingecko; the
dict has no symbol field, the symbol being carried separately by the
caller. -/
theorem claimC7_amended_roundtrip (symbol : String) (r : HttpResp)
    (coin : List (String × JVal)) (v : JVal)
    (h200 : r.status_code = 200)
    (hcoin : lookupStr r.json (coin_id symbol) = some (JVal.obj coin))
    (husd : lookupStr coin "usd" = some v) :
    get_coingecko_price symbol (Transport.resp r) =
      some [("price", v),
            ("change_24h", (lookupStr coin "usd_24h_change").getD (JVal.num 0)),
            ("volume_24h", (lookupStr coin "usd_24h_vol").getD (JVal.num 0))] ∧
    scenarioFetch.result =
      some [("price", JVal.num (67000.5 : ℚ)), ("change_24h", JVal.num (2.3 : ℚ)),
            ("volume_24h", JVal.num 0), ("source", JVal.str "coingecko")] := by
  constructor
  · simp [get_coingecko_price, h200, hcoin, husd]
  · simp [scenarioFetch, get_price_with_fallbacks, methodsList, fallbacksGo,
      methodOutcomes, scenarioTransport, get_binance_price, get_coingecko_price,
      get_cryptocompare_price, coin_id, symbol_map, outcomeOf, check_rate_limit,
      getWindow, pruneWindow, limitFor, limits, initState, setEntry, lookupStr, jnum]

/-- Witness for the amended C7 at the concrete scenario response. -/
theorem claimC7_amended_roundtrip_witness :
    get_coingecko_price "BTC" (Transport.resp ⟨200, [("bitcoin", JVal.obj
        [("usd", JVal.num (67000.5 : ℚ)), ("usd_24h_change", JVal.num (2.3 : ℚ))])]⟩) =
      some [("price", JVal.num (67000.5 : ℚ)), ("change_24h", JVal.num (2.3 : ℚ)),
            ("volume_24h", JVal.num 0)] := by
  have h := claimC7_amended_roundtrip "BTC"
    ⟨200, [("bitcoin", JVal.obj
      [("usd", JVal.num (67000.5 : ℚ)), ("usd_24h_change", JVal.num (2.3 : ℚ))])]⟩
    [("usd", JVal.num (67000.5 : ℚ)), ("usd_24h_change", JVal.num (2.3 : ℚ))]
    (JVal.num (67000.5 : ℚ)) rfl
    (by simp [coin_id, symbol_map, lookupStr]) (by simp [lookupStr])
  rw [h.1]
  simp [lookupStr]

end Dantemk1
